import Mathlib

/-!
Shallow embedding of the billing, rate-limit, metrics, review-validation and
pagination logic of the stefans-mvp repository, with theorems checking the
specification's claims against the code.

Conventions of the embedding:
* JavaScript numbers are modelled by `JSNum` (NaN, the two infinities, or an
  exact finite value carried as a rational); integer-valued quantities that the
  code keeps integral are modelled as `Int`/`Nat`.
* The relational store is modelled as explicit lists of rows; a Prisma
  `$transaction` is modelled as an atomic state transformer: a thrown error
  returns the input state unchanged (the rollback the database guarantees).
* The remote Redis counter store and `JSON.parse` are external services; their
  behaviour enters the model as explicit parameters.
-/

namespace MVP

/-- Model of a JavaScript number: NaN, the infinities, or an exact finite
value (as a rational, standing in for the double it would be). -/
inductive JSNum where
  | nan
  | posInf
  | negInf
  | fin (q : ℚ)
deriving Repr, DecidableEq

namespace JSNum

/-- `Number.isFinite`. -/
def isFinite : JSNum → Bool
  | .fin _ => true
  | _ => false

/-- `Math.trunc` on a finite value: truncation toward zero. -/
def jsTrunc (q : ℚ) : ℤ :=
  if q < 0 then ⌈q⌉ else ⌊q⌋

end JSNum

/-- `tokensToCredits` from `app/api/chat/route.ts`:
`if (!Number.isFinite(totalTokens) || totalTokens <= 0) return 0;
 return Math.max(1, Math.ceil(totalTokens / 1000));`
The returned value is integral, so it is modelled as `ℤ`. -/
def tokensToCredits (totalTokens : JSNum) : ℤ :=
  match totalTokens with
  | .fin t => if t ≤ 0 then 0 else max 1 ⌈t / 1000⌉
  | _ => 0

/-- Rate metadata attached to chat responses (`RateMeta` in
`app/api/chat/route.ts`). -/
structure RateMeta where
  limit : ℤ
  remaining : ℤ
  resetSeconds : ℤ
deriving Repr, DecidableEq

/-- `responseHeaders` from `app/api/chat/route.ts`: always `X-Request-Id`,
optionally the three rate-limit headers, optionally `Retry-After` (only when
the hint is truthy and positive). Headers are modelled as an association
list in insertion order. -/
def responseHeaders (requestId : String) (meta : Option RateMeta)
    (retryAfterSec : Option ℤ) : List (String × String) :=
  [("X-Request-Id", requestId)]
    ++ (match meta with
        | some m =>
          [("X-RateLimit-Limit", toString m.limit),
           ("X-RateLimit-Remaining", toString m.remaining),
           ("X-RateLimit-Reset", toString m.resetSeconds)]
        | none => [])
    ++ (match retryAfterSec with
        | some s => if s ≠ 0 ∧ 0 < s then [("Retry-After", toString s)] else []
        | none => [])

/-- `headers(requestId)` from `app/api/admin/billing/overview/route.ts` (and
the identical helper in `app/api/admin/metrics/route.ts`): a single
`X-Request-Id` entry. -/
def billingHeaders (requestId : String) : List (String × String) :=
  [("X-Request-Id", requestId)]

/-- The `resetSeconds` computation after `ratelimit.limit`:
`typeof reset === "number" ? Math.max(1, Math.ceil((reset - Date.now()) / 1000)) : 60`.
`reset = none` models a non-number value. -/
def resetSecondsOf (reset : Option ℚ) (nowMs : ℚ) : ℤ :=
  match reset with
  | some r => max 1 ⌈(r - nowMs) / 1000⌉
  | none => 60

/-- Outcome of `ratelimit.limit(identifier)` as the route reads it:
`success`, and `remaining`/`reset` which are used only when they are
numbers (`none` models a non-number value). -/
structure RateLimitOutcome where
  success : Bool
  remaining : Option ℤ
  reset : Option ℚ
deriving Repr, DecidableEq

/-- The `rateMeta` value the route constructs from the limiter outcome
(`RATE_LIMIT.limit = 20`). -/
def rateMetaOf (o : RateLimitOutcome) (nowMs : ℚ) : RateMeta :=
  { limit := 20
    remaining := o.remaining.getD 0
    resetSeconds := resetSecondsOf o.reset nowMs }

/-- The observable part of the chat route's rate-limited (429) response:
status, `ok`, the `rate` object of the JSON body, and the headers. -/
structure RateLimitedResponse where
  status : ℕ
  ok : Bool
  rateLimit : ℤ
  rateRemaining : ℤ
  rateResetSeconds : ℤ
  headers : List (String × String)
deriving Repr, DecidableEq

/-- The `if (!success)` branch of `POST /api/chat` (step 5): a 429 response
whose body reports `remaining: 0` and whose headers come from
`responseHeaders(requestId, { ...rateMeta, remaining: 0 }, resetSeconds)`. -/
def rateLimitBranch (requestId : String) (o : RateLimitOutcome) (nowMs : ℚ) :
    RateLimitedResponse :=
  let meta := rateMetaOf o nowMs
  let zeroed : RateMeta := { meta with remaining := 0 }
  { status := 429
    ok := false
    rateLimit := zeroed.limit
    rateRemaining := zeroed.remaining
    rateResetSeconds := zeroed.resetSeconds
    headers := responseHeaders requestId (some zeroed) (some meta.resetSeconds) }

/-- The rate-limit step of `POST /api/chat`: when the limiter reports
`success` the request proceeds (`none`); otherwise the 429 branch fires. -/
def rateLimitCheck (requestId : String) (o : RateLimitOutcome) (nowMs : ℚ) :
    Option RateLimitedResponse :=
  if o.success then none else some (rateLimitBranch requestId o nowMs)

/-! ### Review-mode JSON validation -/

/-- A parsed JSON value (the possible results of `JSON.parse`). Objects are
association lists in textual order. -/
inductive Json where
  | null
  | bool (b : Bool)
  | num (q : ℚ)
  | str (s : String)
  | arr (elems : List Json)
  | obj (fields : List (String × Json))

namespace Json

/-- JavaScript `typeof x === "object"`: true for objects, arrays and `null`. -/
def isObjectTy : Json → Bool
  | .obj _ => true
  | .arr _ => true
  | .null => true
  | _ => false

/-- JavaScript `x === null`. -/
def isNull : Json → Bool
  | .null => true
  | _ => false

/-- Property access `x[k]`: a field of an object, `undefined` (`none`)
otherwise. -/
def getProp : Json → String → Option Json
  | .obj fields, k => fields.lookup k
  | _, _ => none

/-- `typeof x === "number"` for an accessed property (`undefined` is not a
number). -/
def propIsNumber (x : Json) (k : String) : Bool :=
  match x.getProp k with
  | some (.num _) => true
  | _ => false

/-- `typeof x === "string"` for an accessed property. -/
def propIsString (x : Json) (k : String) : Bool :=
  match x.getProp k with
  | some (.str _) => true
  | _ => false

/-- `Array.isArray` for an accessed property. -/
def propIsArray (x : Json) (k : String) : Bool :=
  match x.getProp k with
  | some (.arr _) => true
  | _ => false

end Json

/-- `isReviewResult` from `lib/framework/reviewSchema.ts`, clause by clause:
reject non-objects and `null`, then require `score : number`,
`verdict : string`, an object non-null `breakdown` with the five numeric
sub-scores, and the three arrays. -/
def isReviewResult (x : Json) : Bool :=
  if !x.isObjectTy || x.isNull then false
  else
    let breakdown := x.getProp "breakdown"
    x.propIsNumber "score"
      && x.propIsString "verdict"
      && (match breakdown with
          | some b => b.isObjectTy && !b.isNull
              && b.propIsNumber "businessRelevance"
              && b.propIsNumber "riskCoverage"
              && b.propIsNumber "designQuality"
              && b.propIsNumber "levelAndScope"
              && b.propIsNumber "diagnosticValue"
          | none => false)
      && x.propIsArray "riskGaps"
      && x.propIsArray "antiPatterns"
      && x.propIsArray "improvements"

/-- The observable part of the review branch's response: status, `ok`, the
`review` object when one is returned, the `raw` model text when it is
surfaced instead, and the error label. -/
structure ReviewResponse where
  status : ℕ
  ok : Bool
  review : Option Json
  raw : Option String
  error : Option String

/-- Step 8 of `POST /api/chat` in review mode. `parsed` is the outcome of
the external `JSON.parse(jsonText)` call: `none` models a parse exception
(the `catch` branch), `some p` a successfully parsed value. The branch
returns 200 in all three cases; only a value passing `isReviewResult` is
returned as a parsed `review` object. -/
def reviewBranch (reply : String) (parsed : Option Json) : ReviewResponse :=
  match parsed with
  | none =>
    { status := 200, ok := false, review := none, raw := some reply
      error := some "Failed to parse review JSON" }
  | some p =>
    if isReviewResult p then
      { status := 200, ok := true, review := some p, raw := none, error := none }
    else
      { status := 200, ok := false, review := none, raw := some reply
        error := some "Invalid review JSON shape" }

/-! ### Billing: wallets, ledger, charge and top-up transactions -/

/-- A row of `OrgMember` (the fields the billing code selects). -/
structure OrgMemberRow where
  auth0Sub : String
  organizationId : String
deriving Repr, DecidableEq

/-- A row of `CreditWallet`. The balance column is integral in the schema;
it is modelled as `ℚ` because `chargeCredits` is quantified over arbitrary
finite JavaScript amounts. -/
structure WalletRow where
  id : String
  organizationId : String
  currency : String
  balance : ℚ
deriving Repr, DecidableEq

/-- A row of `CreditLedger` (the fields the transactions write). -/
structure LedgerRow where
  walletId : String
  auth0Sub : String
  delta : ℚ
  reason : String
  requestId : String
deriving Repr, DecidableEq

/-- The relational state the billing transactions touch. -/
structure BillingDb where
  members : List OrgMemberRow
  wallets : List WalletRow
  ledger : List LedgerRow
deriving Repr, DecidableEq

/-- Update the first row matching `p` (the Prisma `update where id = ...`
on a column the schema keeps unique). -/
def updateFirst (p : α → Bool) (f : α → α) : List α → List α
  | [] => []
  | x :: xs => if p x then f x :: xs else x :: updateFirst p f xs

/-- `where` clause of the member lookup in `chargeCredits`. -/
def memberMatch (auth0Sub : String) (m : OrgMemberRow) : Bool :=
  m.auth0Sub == auth0Sub

/-- `where` clause of the unique wallet lookup: `(organizationId, "credits")`. -/
def walletMatch (organizationId : String) (w : WalletRow) : Bool :=
  w.organizationId == organizationId && w.currency == "credits"

/-- Result of `chargeCredits`: `nullResult` models the guard's `return null`;
the three `err` cases model the thrown errors (the transaction rolls back);
`ok b` models a committed transaction returning the updated balance `b`. -/
inductive ChargeOutcome where
  | nullResult
  | errNoOrg
  | errNoWallet
  | errInsufficient
  | ok (newBalance : ℚ)
deriving Repr, DecidableEq

/-- `chargeCredits` from `lib/billing/chargeCredits.ts`. Guard:
`if (!Number.isFinite(credits) || credits <= 0) return null`. Then, in one
transaction: find the member's organization, find the org's credits wallet,
throw `InsufficientCreditsError` when `balance < credits`, decrement the
balance, append a ledger row with delta `-credits`, reason `"chat_usage"`
and the request id, and return the updated balance. A thrown error leaves
the state unchanged (rollback). -/
def chargeCredits (db : BillingDb) (auth0Sub : String) (credits : JSNum)
    (requestId : String) : ChargeOutcome × BillingDb :=
  match credits with
  | .fin c =>
    if c ≤ 0 then (.nullResult, db)
    else
      match db.members.find? (memberMatch auth0Sub) with
      | none => (.errNoOrg, db)
      | some member =>
        match db.wallets.find? (walletMatch member.organizationId) with
        | none => (.errNoWallet, db)
        | some wallet =>
          if wallet.balance < c then (.errInsufficient, db)
          else
            let newWallets :=
              updateFirst (fun w => w.id == wallet.id)
                (fun w => { w with balance := w.balance - c }) db.wallets
            let entry : LedgerRow :=
              { walletId := wallet.id, auth0Sub := auth0Sub, delta := -c
                reason := "chat_usage", requestId := requestId }
            (.ok (wallet.balance - c),
             { db with wallets := newWallets, ledger := db.ledger ++ [entry] })
  | _ => (.nullResult, db)

/-- Amount validation of `POST /api/admin/billing/overview`:
`amount = Number.isFinite(raw) ? Math.trunc(raw) : NaN`, rejected unless
finite, positive, and at most 1,000,000. Returns the accepted (truncated)
amount. -/
def topupAcceptedAmount (amountRaw : JSNum) : Option ℤ :=
  match amountRaw with
  | .fin q =>
    let a := JSNum.jsTrunc q
    if 0 < a ∧ a ≤ 1000000 then some a else none
  | _ => none

/-- The `reason` string of a top-up:
`body.note?.trim() ? "admin_adjust:" + note.trim().slice(0, 60) : "admin_adjust"`. -/
def topupReason (note : Option String) : String :=
  match note with
  | some n =>
    if n.trim ≠ "" then "admin_adjust:" ++ ((n.trim).take 60) else "admin_adjust"
  | none => "admin_adjust"

/-- The top-up transaction: ensure the org's credits wallet exists (creating
it with balance 0 under a database-generated id when missing), increment its
balance by `amount`, and append a ledger row with delta `+amount`. Returns
the new state and the updated balance the endpoint reports. -/
def topupTransaction (db : BillingDb) (organizationId : String) (amount : ℤ)
    (auth0Sub requestId reason freshWalletId : String) : BillingDb × ℚ :=
  match db.wallets.find? (walletMatch organizationId) with
  | some wallet =>
    let newWallets :=
      updateFirst (fun w => w.id == wallet.id)
        (fun w => { w with balance := w.balance + (amount : ℚ) }) db.wallets
    let entry : LedgerRow :=
      { walletId := wallet.id, auth0Sub := auth0Sub, delta := (amount : ℚ)
        reason := reason, requestId := requestId }
    ({ db with wallets := newWallets, ledger := db.ledger ++ [entry] },
     wallet.balance + (amount : ℚ))
  | none =>
    let created : WalletRow :=
      { id := freshWalletId, organizationId := organizationId
        currency := "credits", balance := 0 }
    let newWallets :=
      updateFirst (fun w => w.id == freshWalletId)
        (fun w => { w with balance := w.balance + (amount : ℚ) })
        (db.wallets ++ [created])
    let entry : LedgerRow :=
      { walletId := freshWalletId, auth0Sub := auth0Sub, delta := (amount : ℚ)
        reason := reason, requestId := requestId }
    ({ db with wallets := newWallets, ledger := db.ledger ++ [entry] },
     (amount : ℚ))

/-- Observable outcome of the top-up endpoint: `badRequest` models the 400
amount-validation responses; `okDone b` the 200 response reporting the
updated balance `b`. -/
inductive TopupOutcome where
  | badRequest
  | okDone (balance : ℚ)
deriving Repr, DecidableEq

/-- The amount-dependent part of `POST /api/admin/billing/overview` (after
auth and organization resolution): validate the body amount, then run the
top-up transaction. -/
def topupPOST (db : BillingDb) (amountRaw : JSNum)
    (organizationId auth0Sub requestId : String) (note : Option String)
    (freshWalletId : String) : TopupOutcome × BillingDb :=
  match topupAcceptedAmount amountRaw with
  | none => (.badRequest, db)
  | some amount =>
    let r := topupTransaction db organizationId amount auth0Sub requestId
      (topupReason note) freshWalletId
    (.okDone r.2, r.1)

/-! ### Balance-mutating operations and the non-negativity invariant -/

/-- A balance-mutating operation: the chat credit charge or the admin
top-up. -/
inductive BillingOp where
  | charge (auth0Sub : String) (credits : JSNum) (requestId : String)
  | topup (amountRaw : JSNum) (organizationId auth0Sub requestId : String)
      (note : Option String) (freshWalletId : String)

/-- Apply one operation to the state. -/
def applyOp (db : BillingDb) (op : BillingOp) : BillingDb :=
  match op with
  | .charge sub credits rid => (chargeCredits db sub credits rid).2
  | .topup raw org sub rid note fresh =>
    (topupPOST db raw org sub rid note fresh).2

/-- Every wallet balance is non-negative. -/
def WalletsNonneg (db : BillingDb) : Prop :=
  ∀ w ∈ db.wallets, 0 ≤ w.balance

/-- Database well-formedness: wallet ids are unique (the primary-key
constraint). -/
def WalletIdsNodup (db : BillingDb) : Prop :=
  (db.wallets.map WalletRow.id).Nodup

/-- An operation respects the database's id generation: a top-up's freshly
created wallet id does not collide with an existing one. -/
def OpOk (db : BillingDb) : BillingOp → Prop
  | .charge _ _ _ => True
  | .topup _ _ _ _ _ fresh => fresh ∉ db.wallets.map WalletRow.id

/-- A sequence of operations is database-valid from `db`: each operation is
valid in the state it runs in. -/
def OpsOk : BillingDb → List BillingOp → Prop
  | _, [] => True
  | db, op :: rest => OpOk db op ∧ OpsOk (applyOp db op) rest

/-! ### Chat metrics (Redis counter buckets) -/

/-- Mode label recorded with a metric. -/
inductive ChatMetricMode where
  | coach
  | review
  | unknown
deriving Repr, DecidableEq

/-- Input of `recordChatMetric`. -/
structure MetricInput where
  nowMs : ℤ
  mode : ChatMetricMode
  status : ℕ
  latencyMs : ℚ
  rateLimited : Bool
deriving Repr, DecidableEq

/-- `bucketKey`: epoch seconds rounded down to 5 minutes
(`Math.floor(nowMs / 1000 / 300) * 300`), prepended with the metrics
namespace. `Int.fdiv` is floor division, matching `Math.floor`. -/
def bucketKey (nowMs : ℤ) : String :=
  "metrics:chat:bucket:" ++ toString (Int.fdiv nowMs 300000 * 300)

/-- One pipelined Redis command. -/
inductive RedisCmd where
  | hincrby (key field : String) (incr : ℤ)
  | expire (key : String) (seconds : ℕ)
deriving Repr, DecidableEq

/-- The pipeline both copies of `recordChatMetric` build: the five hash
increments, the conditional `rate_limited` increment, and the 2-hour TTL. -/
def metricPipeline (input : MetricInput) : List RedisCmd :=
  let key := bucketKey input.nowMs
  let modeField :=
    match input.mode with
    | .coach => "mode_coach"
    | .review => "mode_review"
    | .unknown => "mode_unknown"
  let statusField := "status_" ++ toString input.status
  let latency := max 0 ⌊input.latencyMs⌋
  [RedisCmd.hincrby key "total" 1,
   RedisCmd.hincrby key modeField 1,
   RedisCmd.hincrby key statusField 1,
   RedisCmd.hincrby key "latency_sum_ms" latency,
   RedisCmd.hincrby key "latency_count" 1]
    ++ (if input.rateLimited then [RedisCmd.hincrby key "rate_limited" 1] else [])
    ++ [RedisCmd.expire key 7200]

/-- `recordChatMetric` from `lib/metrics/chatMetrics.ts` — the copy the chat
route imports. The whole body sits inside `try { ... } catch \x7b\x7d`, so any
failure of the remote store (`exec`, modelled as a parameter covering every
behaviour of the store) is swallowed and the function returns normally. -/
def recordChatMetric (input : MetricInput)
    (exec : List RedisCmd → Except String Unit) : Except String Unit :=
  match exec (metricPipeline input) with
  | .ok _ => .ok ()
  | .error _ => .ok ()

/-- `recordChatMetric` from `lib/metrics.ts` — the duplicate copy. It builds
the same pipeline but has no `try`/`catch`: a failure of the remote store
propagates to the caller as a thrown error. No module imports this copy. -/
def recordChatMetricLegacy (input : MetricInput)
    (exec : List RedisCmd → Except String Unit) : Except String Unit :=
  exec (metricPipeline input)

/-! ### Chat history pagination -/

/-- Prisma cursor pagination as both history endpoints use it:
`take: limit + 1`, `cursor: { id }`, `skip: 1` over a fixed ordered result
set, then `hasMore`/`page`/`nextCursor` as computed in the routes. `rows` is
the full ordered query result (`orderBy createdAt desc`). -/
def scopedRows (getId : α → String) (rows : List α) (cursor : Option String) :
    List α :=
  match cursor with
  | none => rows
  | some c => ((rows.dropWhile fun r => getId r != c).drop 1)

/-- One pagination call: the returned page and `nextCursor`
(`hasMore ? page[page.length - 1].id : null`). -/
def paginate (getId : α → String) (rows : List α) (limit : ℕ)
    (cursor : Option String) : List α × Option String :=
  let taken := (scopedRows getId rows cursor).take (limit + 1)
  if limit < taken.length then
    let page := taken.take limit
    (page, page.getLast?.map getId)
  else (taken, none)

/-- Walk the pages from a cursor, following `nextCursor` until it is null.
`fuel` bounds the recursion; any `fuel ≥ rows.length` is enough. -/
def walkPages (getId : α → String) (rows : List α) (limit : ℕ) :
    ℕ → Option String → List α
  | 0, _ => []
  | fuel + 1, cursor =>
    match paginate getId rows limit cursor with
    | (page, none) => page
    | (page, some c) => page ++ walkPages getId rows limit fuel (some c)

/-- A `ChatSession` row (fields the history endpoints select), in the
query's `createdAt desc` order inside the stored list. -/
structure ChatSessionRow where
  id : String
  auth0Sub : String
  title : Option String
  mode : String
  createdAt : ℤ
deriving Repr, DecidableEq

/-- A `ChatMessage` row (fields the history endpoints select), stored in
`createdAt desc` order. -/
structure ChatMessageRow where
  id : String
  sessionId : String
  auth0Sub : String
  role : String
  content : String
  createdAt : ℤ
deriving Repr, DecidableEq

/-- One item of the session-list response body. -/
structure HistoryItem where
  id : String
  title : Option String
  mode : String
  createdAt : ℤ
  lastActivityAt : ℤ
  lastMessage : Option (String × String × ℤ)
deriving Repr, DecidableEq

/-- Response of `GET /api/chat/history` (part of the body plus headers; the
route passes no headers argument to `NextResponse.json`, so the
application-set header list is empty). -/
structure HistoryResponse where
  status : ℕ
  headers : List (String × String)
  items : List HistoryItem
  nextCursor : Option String
deriving Repr, DecidableEq

/-- Latest message of a session: `findFirst` with `orderBy createdAt desc`,
i.e. the first match in the desc-ordered stored list. -/
def latestMessage (messages : List ChatMessageRow) (sub sid : String) :
    Option ChatMessageRow :=
  messages.find? fun m => m.sessionId == sid && m.auth0Sub == sub

/-- `GET /api/chat/history`: 401 without a session subject; otherwise pull
one page of the caller's sessions (`limit = min(limitParam ?? 20, 50)`) and
join each with its latest message. The query-string parse is external; the
handler is modelled from the parsed `limit`/`cursor` values on. -/
def historyGET (sessions : List ChatSessionRow)
    (messages : List ChatMessageRow) (sub : Option String)
    (limitParam : Option ℕ) (cursor : Option String) : HistoryResponse :=
  match sub with
  | none => { status := 401, headers := [], items := [], nextCursor := none }
  | some s =>
    let limit := min (limitParam.getD 20) 50
    let mine := sessions.filter fun r => r.auth0Sub == s
    let r := paginate ChatSessionRow.id mine limit cursor
    { status := 200
      headers := []
      items := r.1.map fun sess =>
        match latestMessage messages s sess.id with
        | some m =>
          { id := sess.id, title := sess.title, mode := sess.mode
            createdAt := sess.createdAt, lastActivityAt := m.createdAt
            lastMessage := some (m.role, m.content, m.createdAt) }
        | none =>
          { id := sess.id, title := sess.title, mode := sess.mode
            createdAt := sess.createdAt, lastActivityAt := sess.createdAt
            lastMessage := none }
      nextCursor := r.2 }

/-- Response of `GET /api/chat/history/[sessionId]` (again: the route never
passes headers to `NextResponse.json`). -/
structure MessagesResponse where
  status : ℕ
  headers : List (String × String)
  items : List ChatMessageRow
  nextCursor : Option String
deriving Repr, DecidableEq

/-- `GET /api/chat/history/[sessionId]`: 401 without a subject, 400 on a
missing id, 404 when the session is not the caller's; otherwise one page of
the session's messages (`limit = min(limitParam ?? 120, 200)`, desc order),
reversed for display. -/
def messagesGET (sessions : List ChatSessionRow)
    (messages : List ChatMessageRow) (sub : Option String)
    (sessionId : Option String) (limitParam : Option ℕ)
    (cursor : Option String) : MessagesResponse :=
  match sub with
  | none => { status := 401, headers := [], items := [], nextCursor := none }
  | some s =>
    match sessionId with
    | none => { status := 400, headers := [], items := [], nextCursor := none }
    | some sid =>
      if (sessions.find? fun r => r.id == sid && r.auth0Sub == s).isNone then
        { status := 404, headers := [], items := [], nextCursor := none }
      else
        let limit := min (limitParam.getD 120) 200
        let mine := messages.filter fun m => m.sessionId == sid && m.auth0Sub == s
        let r := paginate ChatMessageRow.id mine limit cursor
        { status := 200, headers := [], items := r.1.reverse, nextCursor := r.2 }

/-! ### Helper lemmas on lists -/

theorem find?_decomp {α} {p : α → Bool} :
    ∀ {l : List α} {b : α}, l.find? p = some b →
      ∃ l₁ l₂, l = l₁ ++ b :: l₂ ∧ (∀ x ∈ l₁, p x = false) ∧ p b = true := by
  intro l
  induction l with
  | nil => intro b h; simp [List.find?] at h
  | cons a as ih =>
    intro b h
    by_cases hpa : p a
    · rw [List.find?_cons_of_pos _ hpa] at h
      cases h
      exact ⟨[], as, by simp, by simp, hpa⟩
    · rw [List.find?_cons_of_neg _ hpa] at h
      obtain ⟨l₁, l₂, hsplit, hfalse, hb⟩ := ih h
      exact ⟨a :: l₁, l₂, by simp [hsplit], by
        intro x hx
        rcases List.mem_cons.mp hx with hxa | hxl
        · subst hxa; exact Bool.eq_false_iff.mpr hpa
        · exact hfalse x hxl, hb⟩

theorem updateFirst_append_of_neg {α} {p : α → Bool} {f : α → α} {l₁ : List α}
    (h : ∀ x ∈ l₁, p x = false) (b : α) (hb : p b = true) (l₂ : List α) :
    updateFirst p f (l₁ ++ b :: l₂) = l₁ ++ f b :: l₂ := by
  induction l₁ with
  | nil => simp [updateFirst, hb]
  | cons a as ih =>
    have ha : p a = false := h a (List.mem_cons_self a as)
    simp only [List.cons_append, updateFirst, ha, Bool.false_eq_true, if_false,
      List.append_eq]
    rw [ih fun x hx => h x (List.mem_cons_of_mem a hx)]

theorem find?_append_of_neg {α} {p : α → Bool} {l₁ : List α}
    (h : ∀ x ∈ l₁, p x = false) (l₂ : List α) :
    (l₁ ++ l₂).find? p = l₂.find? p := by
  induction l₁ with
  | nil => simp
  | cons a as ih =>
    have ha : p a = false := h a (List.mem_cons_self a as)
    simp only [List.cons_append]
    rw [List.find?_cons_of_neg _ (by simp [ha]),
      ih fun x hx => h x (List.mem_cons_of_mem a hx)]

theorem dropWhile_append_cons {α} {p : α → Bool} {l₁ : List α}
    (h : ∀ x ∈ l₁, p x = true) {b : α} (hb : p b = false) (l₂ : List α) :
    (l₁ ++ b :: l₂).dropWhile p = b :: l₂ := by
  induction l₁ with
  | nil => simp [List.dropWhile, hb]
  | cons a as ih =>
    have ha : p a = true := h a (List.mem_cons_self a as)
    simp only [List.cons_append, List.dropWhile, ha]
    exact ih fun x hx => h x (List.mem_cons_of_mem a hx)

theorem mem_updateFirst {α} {p : α → Bool} {f : α → α} :
    ∀ {l : List α} {y : α}, y ∈ updateFirst p f l →
      y ∈ l ∨ ∃ x, x ∈ l ∧ p x = true ∧ y = f x := by
  intro l
  induction l with
  | nil => intro y h; simp [updateFirst] at h
  | cons a as ih =>
    intro y h
    by_cases hpa : p a
    · simp only [updateFirst, hpa, if_true] at h
      rcases List.mem_cons.mp h with hy | hy
      · exact Or.inr ⟨a, List.mem_cons_self a as, hpa, hy⟩
      · exact Or.inl (List.mem_cons_of_mem a hy)
    · simp only [updateFirst, hpa, if_false] at h
      rcases List.mem_cons.mp h with hy | hy
      · exact Or.inl (hy ▸ List.mem_cons_self a as)
      · rcases ih hy with hy2 | ⟨x, hx, hpx, hyx⟩
        · exact Or.inl (List.mem_cons_of_mem a hy2)
        · exact Or.inr ⟨x, List.mem_cons_of_mem a hx, hpx, hyx⟩

theorem map_updateFirst {α β} {p : α → Bool} {f : α → α} (g : α → β)
    (hgf : ∀ x, g (f x) = g x) :
    ∀ l : List α, (updateFirst p f l).map g = l.map g := by
  intro l
  induction l with
  | nil => rfl
  | cons a as ih =>
    by_cases hpa : p a
    · simp [updateFirst, hpa, hgf]
    · simp [updateFirst, hpa, ih]

theorem map_id_updateFirst (p : WalletRow → Bool) (g : WalletRow → ℚ) :
    ∀ l : List WalletRow,
      (updateFirst p (fun x => { x with balance := g x }) l).map WalletRow.id =
      l.map WalletRow.id :=
  map_updateFirst WalletRow.id (fun _ => rfl)

theorem nodup_split_ne {α β} {g : α → β} {l₁ l₂ : List α} {b : α}
    (h : ((l₁ ++ b :: l₂).map g).Nodup) : ∀ x ∈ l₁, g x ≠ g b := by
  intro x hx
  rw [List.map_append] at h
  rcases (List.nodup_append.mp h) with ⟨_, _, hdis⟩
  intro hEq
  exact hdis (List.mem_map_of_mem g hx) (hEq ▸ List.mem_cons_self (g b) _)

/-! ### Claim theorems -/

/-- C10: the token-to-credit conversion charges 0 for a non-finite or
non-positive total token count, `max(1, ceil(t / 1000))` for a positive
count `t`, and hence at least 1 credit for any request that consumed at
least one token. -/
theorem tokensToCredits_spec :
    (∀ t : JSNum, t.isFinite = false → tokensToCredits t = 0) ∧
    (∀ q : ℚ, q ≤ 0 → tokensToCredits (.fin q) = 0) ∧
    (∀ q : ℚ, 0 < q → tokensToCredits (.fin q) = max 1 ⌈q / 1000⌉) ∧
    (∀ q : ℚ, 1 ≤ q → 1 ≤ tokensToCredits (.fin q)) := by
  refine ⟨?_, ?_, ?_, ?_⟩
  · intro t ht
    cases t with
    | nan => rfl
    | posInf => rfl
    | negInf => rfl
    | fin q => simp [JSNum.isFinite] at ht
  · intro q hq
    simp [tokensToCredits, hq]
  · intro q hq
    simp [tokensToCredits, not_le.mpr hq]
  · intro q hq
    have hq0 : ¬ q ≤ 0 := not_le.mpr (lt_of_lt_of_le one_pos hq)
    simp only [tokensToCredits, hq0, if_false]
    exact le_max_left 1 _

/-- C10 witness: concrete evaluations at `NaN`, `0`, `1500` and `1`
tokens. -/
theorem tokensToCredits_spec_witness :
    JSNum.isFinite .nan = false ∧ tokensToCredits .nan = 0 ∧
    (0 : ℚ) ≤ 0 ∧ tokensToCredits (.fin 0) = 0 ∧
    (0 : ℚ) < 1500 ∧ tokensToCredits (.fin 1500) = max 1 ⌈(1500 : ℚ) / 1000⌉ ∧
    (1 : ℚ) ≤ 1 ∧ 1 ≤ tokensToCredits (.fin 1) :=
  ⟨by decide, tokensToCredits_spec.1 .nan (by decide),
   by decide, tokensToCredits_spec.2.1 0 (by decide),
   by decide, tokensToCredits_spec.2.2.1 1500 (by decide),
   by decide, tokensToCredits_spec.2.2.2 1 (by decide)⟩

/-- C5: when the limiter reports the window exhausted, the chat route
returns the 429 branch: status 429, body rate metadata with
`remaining = 0`, and a `Retry-After` header whose value is
`resetSeconds ≥ 1`. -/
theorem rateLimit_429_spec (requestId : String) (o : RateLimitOutcome)
    (nowMs : ℚ) (h : o.success = false) :
    rateLimitCheck requestId o nowMs =
      some (rateLimitBranch requestId o nowMs) ∧
    (rateLimitBranch requestId o nowMs).status = 429 ∧
    (rateLimitBranch requestId o nowMs).rateRemaining = 0 ∧
    (rateLimitBranch requestId o nowMs).headers.lookup "Retry-After" =
      some (toString (resetSecondsOf o.reset nowMs)) ∧
    1 ≤ resetSecondsOf o.reset nowMs := by
  have hone : 1 ≤ resetSecondsOf o.reset nowMs := by
    cases hr : o.reset with
    | none => simp [resetSecondsOf]
    | some r => simp only [resetSecondsOf]; exact le_max_left 1 _
  refine ⟨by simp [rateLimitCheck, h], rfl, rfl, ?_, hone⟩
  have hpos : (0 : ℤ) < resetSecondsOf o.reset nowMs := lt_of_lt_of_le one_pos hone
  simp [rateLimitBranch, responseHeaders, rateMetaOf, List.lookup, hpos,
    ne_of_gt hpos]

/-- C5 witness: a concrete exhausted limiter outcome (`reset` 12345 ms at
time 0 gives `resetSeconds = 13`). -/
theorem rateLimit_429_spec_witness :
    rateLimitCheck "r1" ⟨false, some 5, some 12345⟩ 0 =
      some (rateLimitBranch "r1" ⟨false, some 5, some 12345⟩ 0) ∧
    (rateLimitBranch "r1" ⟨false, some 5, some 12345⟩ 0).status = 429 ∧
    (rateLimitBranch "r1" ⟨false, some 5, some 12345⟩ 0).rateRemaining = 0 ∧
    (rateLimitBranch "r1" ⟨false, some 5, some 12345⟩ 0).headers.lookup
      "Retry-After" = some (toString (resetSecondsOf (some 12345) 0)) ∧
    1 ≤ resetSecondsOf (some 12345) 0 :=
  rateLimit_429_spec "r1" ⟨false, some 5, some 12345⟩ 0 rfl

/-- C7: a review-mode reply whose extracted JSON fails to parse or fails
`isReviewResult` is returned as a 200 with `ok: false` and the raw model
text, never as a parsed `review` object. -/
theorem review_invalid_never_parsed (reply : String) (parsed : Option Json)
    (h : parsed = none ∨ ∃ p, parsed = some p ∧ isReviewResult p = false) :
    (reviewBranch reply parsed).status = 200 ∧
    (reviewBranch reply parsed).ok = false ∧
    (reviewBranch reply parsed).raw = some reply ∧
    (reviewBranch reply parsed).review = none := by
  rcases h with h | ⟨p, hp, hfail⟩
  · subst h; exact ⟨rfl, rfl, rfl, rfl⟩
  · subst hp
    simp [reviewBranch, hfail]

/-- C7 witness: a value with a `score` of the wrong type fails the shape
check and is surfaced raw. -/
theorem review_invalid_never_parsed_witness :
    (reviewBranch "txt" (some (Json.obj [("score", Json.str "high")]))).status
      = 200 ∧
    (reviewBranch "txt" (some (Json.obj [("score", Json.str "high")]))).ok
      = false ∧
    (reviewBranch "txt" (some (Json.obj [("score", Json.str "high")]))).raw
      = some "txt" ∧
    (reviewBranch "txt" (some (Json.obj [("score", Json.str "high")]))).review
      = none :=
  review_invalid_never_parsed "txt" (some (Json.obj [("score", Json.str "high")]))
    (Or.inr ⟨Json.obj [("score", Json.str "high")], rfl, rfl⟩)

/-- C9 (amended): the `recordChatMetric` the chat route imports
(`lib/metrics/chatMetrics.ts`) returns normally for every input and every
behaviour of the remote counter store, including failure: the `catch`
swallows the error. -/
theorem recordChatMetric_never_throws (input : MetricInput)
    (exec : List RedisCmd → Except String Unit) :
    recordChatMetric input exec = .ok () := by
  unfold recordChatMetric
  cases exec (metricPipeline input) with
  | ok u => rfl
  | error e => rfl

/-- C9 counterexample: the duplicate `recordChatMetric` in `lib/metrics.ts`
has no `try`/`catch`, so a store failure propagates to the caller — the
claim is false for that copy. -/
theorem recordChatMetricLegacy_throws :
    recordChatMetricLegacy
      { nowMs := 0, mode := .coach, status := 200, latencyMs := 5
        rateLimited := false }
      (fun _ => .error "redis unavailable") = .error "redis unavailable" := rfl

/-- C1: a charge of `c` credits (`c` positive and finite) against a wallet
with balance `b ≥ c` succeeds: it returns the updated balance `b - c`, the
wallet's balance afterwards is `b - c`, and exactly one ledger row is
appended, with delta `-c`, reason `"chat_usage"` and the request's
correlation id. Wallet ids are unique (primary key). -/
theorem chargeCredits_success (db : BillingDb) (sub rid : String) (c b : ℚ)
    (m : OrgMemberRow) (w : WalletRow)
    (hm : db.members.find? (memberMatch sub) = some m)
    (hw : db.wallets.find? (walletMatch m.organizationId) = some w)
    (hids : WalletIdsNodup db)
    (hb : w.balance = b) (hc : 0 < c) (hcb : c ≤ b) :
    (chargeCredits db sub (.fin c) rid).1 = .ok (b - c) ∧
    (chargeCredits db sub (.fin c) rid).2.wallets.find?
      (walletMatch m.organizationId) = some { w with balance := b - c } ∧
    (chargeCredits db sub (.fin c) rid).2.ledger = db.ledger ++
      [{ walletId := w.id, auth0Sub := sub, delta := -c
         reason := "chat_usage", requestId := rid }] ∧
    (chargeCredits db sub (.fin c) rid).2.members = db.members := by
  have hcle : ¬ c ≤ 0 := not_le.mpr hc
  have hltb : ¬ b < c := not_lt.mpr hcb
  obtain ⟨l₁, l₂, hsplit, hfalse, hwTrue⟩ := find?_decomp hw
  have hids0 : (db.wallets.map WalletRow.id).Nodup := hids
  rw [hsplit] at hids0
  have hne : ∀ x ∈ l₁, (x.id == w.id) = false := by
    intro x hx
    simpa using nodup_split_ne (g := WalletRow.id) hids0 x hx
  have hupd :
      updateFirst (fun x => x.id == w.id)
        (fun x => { x with balance := x.balance - c }) db.wallets =
      l₁ ++ { w with balance := b - c } :: l₂ := by
    rw [hsplit, updateFirst_append_of_neg hne w (by simp) l₂, hb]
  have hfind :
      (l₁ ++ { w with balance := b - c } :: l₂).find?
        (walletMatch m.organizationId) =
      some { w with balance := b - c } := by
    rw [find?_append_of_neg hfalse]
    exact List.find?_cons_of_pos _ (by simpa [walletMatch] using hwTrue)
  have hres : chargeCredits db sub (.fin c) rid =
      (.ok (b - c),
       { members := db.members
         wallets := l₁ ++ { w with balance := b - c } :: l₂
         ledger := db.ledger ++
           [{ walletId := w.id, auth0Sub := sub, delta := -c
              reason := "chat_usage", requestId := rid }] }) := by
    simp [chargeCredits, hcle, hm, hw, hb, hltb, hupd]
  rw [hres]
  exact ⟨rfl, hfind, rfl, rfl⟩

/-- C1 witness: a wallet with balance 10 charged 3 credits. -/
theorem chargeCredits_success_witness :
    (chargeCredits
      { members := [{ auth0Sub := "u1", organizationId := "org1" }]
        wallets := [{ id := "w1", organizationId := "org1"
                      currency := "credits", balance := 10 }]
        ledger := [] } "u1" (.fin 3) "r1").1 = .ok (10 - 3) ∧
    (chargeCredits
      { members := [{ auth0Sub := "u1", organizationId := "org1" }]
        wallets := [{ id := "w1", organizationId := "org1"
                      currency := "credits", balance := 10 }]
        ledger := [] } "u1" (.fin 3) "r1").2.wallets.find?
      (walletMatch "org1") =
      some { id := "w1", organizationId := "org1", currency := "credits"
             balance := 10 - 3 } ∧
    (chargeCredits
      { members := [{ auth0Sub := "u1", organizationId := "org1" }]
        wallets := [{ id := "w1", organizationId := "org1"
                      currency := "credits", balance := 10 }]
        ledger := [] } "u1" (.fin 3) "r1").2.ledger = [] ++
      [{ walletId := "w1", auth0Sub := "u1", delta := -3
         reason := "chat_usage", requestId := "r1" }] ∧
    (chargeCredits
      { members := [{ auth0Sub := "u1", organizationId := "org1" }]
        wallets := [{ id := "w1", organizationId := "org1"
                      currency := "credits", balance := 10 }]
        ledger := [] } "u1" (.fin 3) "r1").2.members =
      [{ auth0Sub := "u1", organizationId := "org1" }] :=
  chargeCredits_success
    { members := [{ auth0Sub := "u1", organizationId := "org1" }]
      wallets := [{ id := "w1", organizationId := "org1"
                    currency := "credits", balance := 10 }]
      ledger := [] } "u1" "r1" 3 10
    { auth0Sub := "u1", organizationId := "org1" }
    { id := "w1", organizationId := "org1", currency := "credits"
      balance := 10 }
    (by decide) (by decide) (by unfold WalletIdsNodup; decide) (by decide)
    (by decide) (by decide)

/-- C2: a charge of `c > 0` credits against a wallet with balance `b < c`
throws `InsufficientCreditsError` and the transaction rolls back: the state
(wallets and ledger) is returned unchanged. -/
theorem chargeCredits_insufficient (db : BillingDb) (sub rid : String)
    (c b : ℚ) (m : OrgMemberRow) (w : WalletRow)
    (hm : db.members.find? (memberMatch sub) = some m)
    (hw : db.wallets.find? (walletMatch m.organizationId) = some w)
    (hb : w.balance = b) (hc : 0 < c) (hlt : b < c) :
    chargeCredits db sub (.fin c) rid = (.errInsufficient, db) := by
  have hcle : ¬ c ≤ 0 := not_le.mpr hc
  have hblt : w.balance < c := hb ▸ hlt
  simp [chargeCredits, hcle, hm, hw, hblt]

/-- C2 witness: a wallet with balance 2 charged 3 credits is left
unchanged. -/
theorem chargeCredits_insufficient_witness :
    chargeCredits
      { members := [{ auth0Sub := "u1", organizationId := "org1" }]
        wallets := [{ id := "w1", organizationId := "org1"
                      currency := "credits", balance := 2 }]
        ledger := [] } "u1" (.fin 3) "r1" =
      (.errInsufficient,
       { members := [{ auth0Sub := "u1", organizationId := "org1" }]
         wallets := [{ id := "w1", organizationId := "org1"
                       currency := "credits", balance := 2 }]
         ledger := [] }) :=
  chargeCredits_insufficient
    { members := [{ auth0Sub := "u1", organizationId := "org1" }]
      wallets := [{ id := "w1", organizationId := "org1"
                    currency := "credits", balance := 2 }]
      ledger := [] } "u1" "r1" 3 2
    { auth0Sub := "u1", organizationId := "org1" }
    { id := "w1", organizationId := "org1", currency := "credits"
      balance := 2 }
    (by decide) (by decide) (by decide) (by decide) (by decide)

theorem chargeCredits_state (db : BillingDb) (sub : String) (credits : JSNum)
    (rid : String) :
    (chargeCredits db sub credits rid).2 = db ∨
    ∃ (m : OrgMemberRow) (w : WalletRow) (c : ℚ), credits = .fin c ∧ 0 < c ∧
      db.members.find? (memberMatch sub) = some m ∧
      db.wallets.find? (walletMatch m.organizationId) = some w ∧
      c ≤ w.balance ∧
      (chargeCredits db sub credits rid).2.wallets =
        updateFirst (fun x => x.id == w.id)
          (fun x => { x with balance := x.balance - c }) db.wallets := by
  cases credits with
  | nan => exact Or.inl rfl
  | posInf => exact Or.inl rfl
  | negInf => exact Or.inl rfl
  | fin c =>
    by_cases hc : c ≤ 0
    · left; simp [chargeCredits, hc]
    · cases hm : db.members.find? (memberMatch sub) with
      | none => left; simp [chargeCredits, hc, hm]
      | some m =>
        cases hw : db.wallets.find? (walletMatch m.organizationId) with
        | none => left; simp [chargeCredits, hc, hm, hw]
        | some w =>
          by_cases hlt : w.balance < c
          · left; simp [chargeCredits, hc, hm, hw, hlt]
          · right
            refine ⟨m, w, c, rfl, not_le.mp hc, ?_, ?_, not_lt.mp hlt,
              by simp [chargeCredits, hc, hm, hw, hlt]⟩
            · rfl
            · exact hw

theorem topupAcceptedAmount_pos {raw : JSNum} {a : ℤ}
    (h : topupAcceptedAmount raw = some a) : 0 < a ∧ a ≤ 1000000 := by
  cases raw with
  | nan => simp [topupAcceptedAmount] at h
  | posInf => simp [topupAcceptedAmount] at h
  | negInf => simp [topupAcceptedAmount] at h
  | fin q =>
    simp only [topupAcceptedAmount] at h
    split at h
    · cases h; assumption
    · cases h

theorem topupPOST_state (db : BillingDb) (raw : JSNum)
    (org sub rid : String) (note : Option String) (fresh : String) :
    (topupPOST db raw org sub rid note fresh).2 = db ∨
    ∃ (a : ℤ), topupAcceptedAmount raw = some a ∧ 0 < a ∧
      ((∃ w, db.wallets.find? (walletMatch org) = some w ∧
          (topupPOST db raw org sub rid note fresh).2.wallets =
            updateFirst (fun x => x.id == w.id)
              (fun x => { x with balance := x.balance + (a : ℚ) })
              db.wallets) ∨
       (db.wallets.find? (walletMatch org) = none ∧
          (topupPOST db raw org sub rid note fresh).2.wallets =
            updateFirst (fun x => x.id == fresh)
              (fun x => { x with balance := x.balance + (a : ℚ) })
              (db.wallets ++
                [({ id := fresh, organizationId := org
                    currency := "credits", balance := 0 } : WalletRow)]))) := by
  cases ha : topupAcceptedAmount raw with
  | none => left; simp [topupPOST, ha]
  | some a =>
    right
    refine ⟨a, rfl, (topupAcceptedAmount_pos ha).1, ?_⟩
    cases hw : db.wallets.find? (walletMatch org) with
    | some w =>
      exact Or.inl ⟨w, rfl, by simp [topupPOST, ha, topupTransaction, hw]⟩
    | none =>
      exact Or.inr ⟨rfl, by simp [topupPOST, ha, topupTransaction, hw]⟩

theorem applyOp_preserves (db : BillingDb) (op : BillingOp)
    (hids : WalletIdsNodup db) (hnn : WalletsNonneg db) (hop : OpOk db op) :
    WalletIdsNodup (applyOp db op) ∧ WalletsNonneg (applyOp db op) := by
  cases op with
  | charge sub credits rid =>
    rcases chargeCredits_state db sub credits rid with
      heq | ⟨m, w, c, hcr, hc, hm, hw, hcb, hwallets⟩
    · show WalletIdsNodup (chargeCredits db sub credits rid).2 ∧
        WalletsNonneg (chargeCredits db sub credits rid).2
      rw [heq]; exact ⟨hids, hnn⟩
    · constructor
      · show (((chargeCredits db sub credits rid).2.wallets.map
          WalletRow.id)).Nodup
        rw [hwallets, map_id_updateFirst]
        exact hids
      · intro y hy
        show 0 ≤ y.balance
        rw [show (applyOp db (.charge sub credits rid)).wallets =
          (chargeCredits db sub credits rid).2.wallets from rfl, hwallets]
          at hy
        rcases mem_updateFirst hy with hy2 | ⟨x, hx, hpx, hyx⟩
        · exact hnn y hy2
        · have hxw : x = w := by
            have hwmem : w ∈ db.wallets := List.mem_of_find?_eq_some hw
            exact List.inj_on_of_nodup_map hids hx hwmem (by simpa using hpx)
          subst hyx; subst hxw
          exact sub_nonneg.mpr hcb
  | topup raw org sub rid note fresh =>
    rcases topupPOST_state db raw org sub rid note fresh with
      heq | ⟨a, ha, hapos, hcases⟩
    · show WalletIdsNodup (topupPOST db raw org sub rid note fresh).2 ∧
        WalletsNonneg (topupPOST db raw org sub rid note fresh).2
      rw [heq]; exact ⟨hids, hnn⟩
    · have haq : (0 : ℚ) ≤ (a : ℚ) := by exact_mod_cast le_of_lt hapos
      rcases hcases with ⟨w, hw, hwallets⟩ | ⟨hw, hwallets⟩
      · constructor
        · show (((topupPOST db raw org sub rid note fresh).2.wallets.map
            WalletRow.id)).Nodup
          rw [hwallets, map_id_updateFirst]
          exact hids
        · intro y hy
          show 0 ≤ y.balance
          rw [show (applyOp db (.topup raw org sub rid note fresh)).wallets =
            (topupPOST db raw org sub rid note fresh).2.wallets from rfl,
            hwallets] at hy
          rcases mem_updateFirst hy with hy2 | ⟨x, hx, hpx, hyx⟩
          · exact hnn y hy2
          · subst hyx
            exact add_nonneg (hnn x hx) haq
      · have hnodup2 : ((db.wallets ++
            [({ id := fresh, organizationId := org
                currency := "credits", balance := 0 } : WalletRow)]).map
            WalletRow.id).Nodup := by
          rw [List.map_append, List.nodup_append]
          refine ⟨hids, List.nodup_singleton _, ?_⟩
          intro z hz hz2
          simp only [List.map_cons, List.map_nil, List.mem_cons,
            List.not_mem_nil, or_false] at hz2
          subst hz2
          exact hop hz
        constructor
        · show (((topupPOST db raw org sub rid note fresh).2.wallets.map
            WalletRow.id)).Nodup
          rw [hwallets, map_id_updateFirst]
          exact hnodup2
        · intro y hy
          show 0 ≤ y.balance
          rw [show (applyOp db (.topup raw org sub rid note fresh)).wallets =
            (topupPOST db raw org sub rid note fresh).2.wallets from rfl,
            hwallets] at hy
          have hbase : ∀ x ∈ db.wallets ++
              [({ id := fresh, organizationId := org
                  currency := "credits", balance := 0 } : WalletRow)],
              0 ≤ x.balance := by
            intro x hx
            rcases List.mem_append.mp hx with hx1 | hx2
            · exact hnn x hx1
            · simp only [List.mem_cons, List.not_mem_nil, or_false] at hx2
              subst hx2; exact le_refl 0
          rcases mem_updateFirst hy with hy2 | ⟨x, hx, hpx, hyx⟩
          · exact hbase y hy2
          · subst hyx
            exact add_nonneg (hbase x hx) haq

theorem jsTrunc_intCast (n : ℤ) : JSNum.jsTrunc (n : ℚ) = n := by
  unfold JSNum.jsTrunc
  split <;> simp

/-- C4 (amended): for every top-up request the endpoint accepts, the wallet
balance increases by exactly `Math.trunc(a)` where `a` is the body amount
(equal to `a` whenever `a` is an integer), and exactly one ledger row with
delta `+Math.trunc(a)` is appended. -/
theorem topup_adds_truncated_amount (db : BillingDb) (raw : JSNum)
    (org sub rid : String) (note : Option String) (fresh : String)
    (a : ℤ) (w : WalletRow)
    (ha : topupAcceptedAmount raw = some a)
    (hw : db.wallets.find? (walletMatch org) = some w)
    (hids : WalletIdsNodup db) :
    (topupPOST db raw org sub rid note fresh).1 =
      .okDone (w.balance + (a : ℚ)) ∧
    (topupPOST db raw org sub rid note fresh).2.wallets.find?
      (walletMatch org) = some { w with balance := w.balance + (a : ℚ) } ∧
    (topupPOST db raw org sub rid note fresh).2.ledger = db.ledger ++
      [{ walletId := w.id, auth0Sub := sub, delta := (a : ℚ)
         reason := topupReason note, requestId := rid }] ∧
    (∀ q : ℚ, raw = .fin q → a = JSNum.jsTrunc q) := by
  obtain ⟨l₁, l₂, hsplit, hfalse, hwTrue⟩ := find?_decomp hw
  have hids0 : (db.wallets.map WalletRow.id).Nodup := hids
  rw [hsplit] at hids0
  have hne : ∀ x ∈ l₁, (x.id == w.id) = false := by
    intro x hx
    simpa using nodup_split_ne (g := WalletRow.id) hids0 x hx
  have hupd :
      updateFirst (fun x => x.id == w.id)
        (fun x => { x with balance := x.balance + (a : ℚ) }) db.wallets =
      l₁ ++ { w with balance := w.balance + (a : ℚ) } :: l₂ := by
    rw [hsplit, updateFirst_append_of_neg hne w (by simp) l₂]
  have hfind :
      (l₁ ++ { w with balance := w.balance + (a : ℚ) } :: l₂).find?
        (walletMatch org) =
      some { w with balance := w.balance + (a : ℚ) } := by
    rw [find?_append_of_neg hfalse]
    exact List.find?_cons_of_pos _ (by simpa [walletMatch] using hwTrue)
  have hres : topupPOST db raw org sub rid note fresh =
      (.okDone (w.balance + (a : ℚ)),
       { members := db.members
         wallets := l₁ ++ { w with balance := w.balance + (a : ℚ) } :: l₂
         ledger := db.ledger ++
           [{ walletId := w.id, auth0Sub := sub, delta := (a : ℚ)
              reason := topupReason note, requestId := rid }] }) := by
    simp [topupPOST, ha, topupTransaction, hw, hupd]
  rw [hres]
  refine ⟨rfl, hfind, rfl, ?_⟩
  intro q hq
  subst hq
  simp only [topupAcceptedAmount] at ha
  split at ha
  · exact (Option.some.inj ha).symm
  · cases ha

/-- C4 amended-claim witness: an integer top-up of 5 on a wallet holding 2
yields balance 7 and one ledger row with delta 5. -/
theorem topup_adds_truncated_amount_witness :
    (topupPOST
      { members := []
        wallets := [{ id := "w1", organizationId := "org1"
                      currency := "credits", balance := 2 }]
        ledger := [] } (.fin 5) "org1" "admin" "r1" none "w2").1 =
      .okDone (2 + (5 : ℤ)) ∧
    (topupPOST
      { members := []
        wallets := [{ id := "w1", organizationId := "org1"
                      currency := "credits", balance := 2 }]
        ledger := [] } (.fin 5) "org1" "admin" "r1" none "w2").2.wallets.find?
      (walletMatch "org1") =
      some { id := "w1", organizationId := "org1", currency := "credits"
             balance := 2 + (5 : ℤ) } ∧
    (topupPOST
      { members := []
        wallets := [{ id := "w1", organizationId := "org1"
                      currency := "credits", balance := 2 }]
        ledger := [] } (.fin 5) "org1" "admin" "r1" none "w2").2.ledger =
      [] ++ [{ walletId := "w1", auth0Sub := "admin", delta := (5 : ℤ)
               reason := topupReason none, requestId := "r1" }] ∧
    (∀ q : ℚ, JSNum.fin 5 = .fin q → (5 : ℤ) = JSNum.jsTrunc q) :=
  topup_adds_truncated_amount
    { members := []
      wallets := [{ id := "w1", organizationId := "org1"
                    currency := "credits", balance := 2 }]
      ledger := [] } (.fin 5) "org1" "admin" "r1" none "w2" 5
    { id := "w1", organizationId := "org1", currency := "credits"
      balance := 2 }
    (by decide) (by decide) (by unfold WalletIdsNodup; decide)

/-- C4 counterexample: the endpoint accepts the body amount `a = 3/2`
(responding `ok`), but the balance grows by `Math.trunc(3/2) = 1`, not by
`3/2`, and the ledger delta is `1`, not `3/2` — the claim fails as stated
for non-integer accepted amounts. -/
theorem topup_fractional_counterexample :
    (topupPOST
      { members := []
        wallets := [{ id := "w1", organizationId := "org1"
                      currency := "credits", balance := 0 }]
        ledger := [] } (.fin (3 / 2)) "org1" "admin" "r1" none "w2").1 =
      .okDone 1 ∧
    (topupPOST
      { members := []
        wallets := [{ id := "w1", organizationId := "org1"
                      currency := "credits", balance := 0 }]
        ledger := [] } (.fin (3 / 2)) "org1" "admin" "r1" none "w2").2 =
      { members := []
        wallets := [{ id := "w1", organizationId := "org1"
                      currency := "credits", balance := 1 }]
        ledger := [{ walletId := "w1", auth0Sub := "admin", delta := 1
                     reason := "admin_adjust", requestId := "r1" }] } ∧
    (1 : ℚ) ≠ 0 + 3 / 2 := by
  have hAcc : topupAcceptedAmount (.fin (3 / 2)) = some 1 := by
    have ht : JSNum.jsTrunc ((3 : ℚ) / 2) = 1 := by
      unfold JSNum.jsTrunc; norm_num
    simp [topupAcceptedAmount, ht]
  refine ⟨?_, ?_, by norm_num⟩ <;>
    simp [topupPOST, hAcc, topupTransaction, topupReason, updateFirst,
      walletMatch]

/-- C3: from any state with non-negative wallet balances (and the wallet
primary key unique), every database-valid sequence of charge and top-up
operations preserves non-negativity: no reachable state has a negative
wallet balance. -/
theorem billing_nonneg_invariant (db : BillingDb) (ops : List BillingOp)
    (hids : WalletIdsNodup db) (hnn : WalletsNonneg db)
    (hops : OpsOk db ops) : WalletsNonneg (ops.foldl applyOp db) := by
  induction ops generalizing db with
  | nil => exact hnn
  | cons op rest ih =>
    obtain ⟨hop, hrest⟩ := hops
    obtain ⟨hids2, hnn2⟩ := applyOp_preserves db op hids hnn hop
    exact ih (applyOp db op) hids2 hnn2 hrest

/-- C3 witness: a top-up of 5 followed by a charge of 3 on a wallet that
starts at 0 keeps every balance non-negative. -/
theorem billing_nonneg_invariant_witness :
    WalletsNonneg (List.foldl applyOp
      { members := [{ auth0Sub := "u1", organizationId := "org1" }]
        wallets := [{ id := "w1", organizationId := "org1"
                      currency := "credits", balance := 0 }]
        ledger := [] }
      [.topup (.fin 5) "org1" "admin" "r1" none "w2",
       .charge "u1" (.fin 3) "r2"]) :=
  billing_nonneg_invariant
    { members := [{ auth0Sub := "u1", organizationId := "org1" }]
      wallets := [{ id := "w1", organizationId := "org1"
                    currency := "credits", balance := 0 }]
      ledger := [] }
    [.topup (.fin 5) "org1" "admin" "r1" none "w2",
     .charge "u1" (.fin 3) "r2"]
    (by unfold WalletIdsNodup; decide)
    (by intro w hw; fin_cases hw; decide)
    ⟨by simp only [OpOk]; decide, trivial, trivial⟩

theorem scopedRows_of_split {α} (getId : α → String) {rows pre suf : List α}
    {w : α} (hnd : (rows.map getId).Nodup)
    (hsplit : rows = pre ++ w :: suf) :
    scopedRows getId rows (some (getId w)) = suf := by
  subst hsplit
  have hpre : ∀ x ∈ pre, ((fun r => getId r != getId w) x) = true := by
    intro x hx
    simpa using nodup_split_ne (g := getId) hnd x hx
  show (((pre ++ w :: suf).dropWhile fun r => getId r != getId w).drop 1) = suf
  rw [dropWhile_append_cons hpre (by simp) suf]
  rfl

theorem walkPages_eq_suffix {α} (getId : α → String) (rows : List α)
    (limit : ℕ) (hnd : (rows.map getId).Nodup) (hlim : 1 ≤ limit) :
    ∀ (fuel : ℕ) (cursor : Option String) (pre suf : List α),
      rows = pre ++ suf → scopedRows getId rows cursor = suf →
      suf.length ≤ fuel →
      walkPages getId rows limit fuel cursor = suf := by
  intro fuel
  induction fuel with
  | zero =>
    intro cursor pre suf hsplit hscoped hlen
    have hnil : suf = [] := List.eq_nil_of_length_eq_zero (Nat.le_zero.mp hlen)
    rw [hnil]
    rfl
  | succ fuel ih =>
    intro cursor pre suf hsplit hscoped hlen
    by_cases hmore : suf.length ≤ limit
    · have hpag : paginate getId rows limit cursor = (suf, none) := by
        simp only [paginate, hscoped,
          List.take_of_length_le (le_trans hmore (Nat.le_succ limit))]
        rw [if_neg (not_lt.mpr hmore)]
      simp only [walkPages, hpag]
    · push_neg at hmore
      have htklen : ((scopedRows getId rows cursor).take (limit + 1)).length
          = limit + 1 := by
        rw [hscoped, List.length_take]
        omega
      have hpagecast : ((scopedRows getId rows cursor).take (limit + 1)).take
          limit = suf.take limit := by
        rw [hscoped, List.take_take, min_eq_left (Nat.le_succ limit)]
      have hplen : (suf.take limit).length = limit := by
        rw [List.length_take]; omega
      have hpne : suf.take limit ≠ [] := by
        intro h0
        rw [h0] at hplen
        simp only [List.length_nil] at hplen
        omega
      have hlast : (suf.take limit).getLast? =
          some ((suf.take limit).getLast hpne) :=
        List.getLast?_eq_getLast _ hpne
      have hpag : paginate getId rows limit cursor =
          (suf.take limit, some (getId ((suf.take limit).getLast hpne))) := by
        simp only [paginate]
        rw [if_pos (by rw [htklen]; omega), hpagecast, hlast]
        rfl
      obtain ⟨ws, hws⟩ : ∃ ws, suf.take limit =
          ws ++ [(suf.take limit).getLast hpne] :=
        ⟨(suf.take limit).dropLast, (List.dropLast_append_getLast hpne).symm⟩
      have hsplit2 : rows = (pre ++ ws) ++
          (suf.take limit).getLast hpne :: suf.drop limit := by
        conv_lhs => rw [hsplit, ← List.take_append_drop limit suf, hws]
        simp [List.append_assoc]
      have hscoped2 : scopedRows getId rows
          (some (getId ((suf.take limit).getLast hpne))) = suf.drop limit :=
        scopedRows_of_split getId hnd hsplit2
      have hlen2 : (suf.drop limit).length ≤ fuel := by
        rw [List.length_drop]; omega
      have hsplit3 : rows = ((pre ++ ws) ++
          [(suf.take limit).getLast hpne]) ++ suf.drop limit := by
        rw [hsplit2]; simp
      have hih := ih (some (getId ((suf.take limit).getLast hpne)))
        ((pre ++ ws) ++ [(suf.take limit).getLast hpne]) (suf.drop limit)
        hsplit3 hscoped2 hlen2
      simp only [walkPages, hpag]
      rw [hih]
      exact List.take_append_drop limit suf

/-- C8: for a fixed stored result set with distinct row ids and any page
size `limit ≥ 1`, pagination is deterministic (the same cursor and limit
always produce the same page), and walking the pages from the start by
following `nextCursor` enumerates exactly the stored rows, in order — no
row is repeated and none is skipped. This is the cursor scheme shared by
`historyGET` and `messagesGET`. -/
theorem pagination_stable_and_complete {α} (getId : α → String)
    (rows : List α) (limit : ℕ)
    (hnd : (rows.map getId).Nodup) (hlim : 1 ≤ limit) :
    (∀ cursor, paginate getId rows limit cursor =
      paginate getId rows limit cursor) ∧
    walkPages getId rows limit rows.length none = rows :=
  ⟨fun _ => rfl,
   walkPages_eq_suffix getId rows limit hnd hlim rows.length none [] rows
     rfl rfl le_rfl⟩

/-- C8 witness: three stored sessions walked with page size 2. -/
theorem pagination_stable_and_complete_witness :
    (∀ cursor, paginate ChatSessionRow.id
        [{ id := "s1", auth0Sub := "u", title := none, mode := "coach"
           createdAt := 30 },
         { id := "s2", auth0Sub := "u", title := none, mode := "coach"
           createdAt := 20 },
         { id := "s3", auth0Sub := "u", title := none, mode := "review"
           createdAt := 10 }] 2 cursor =
      paginate ChatSessionRow.id
        [{ id := "s1", auth0Sub := "u", title := none, mode := "coach"
           createdAt := 30 },
         { id := "s2", auth0Sub := "u", title := none, mode := "coach"
           createdAt := 20 },
         { id := "s3", auth0Sub := "u", title := none, mode := "review"
           createdAt := 10 }] 2 cursor) ∧
    walkPages ChatSessionRow.id
      [{ id := "s1", auth0Sub := "u", title := none, mode := "coach"
         createdAt := 30 },
       { id := "s2", auth0Sub := "u", title := none, mode := "coach"
         createdAt := 20 },
       { id := "s3", auth0Sub := "u", title := none, mode := "review"
         createdAt := 10 }] 2
      ([{ id := "s1", auth0Sub := "u", title := none, mode := "coach"
          createdAt := 30 },
        { id := "s2", auth0Sub := "u", title := none, mode := "coach"
          createdAt := 20 },
        { id := "s3", auth0Sub := "u", title := none, mode := "review"
          createdAt := 10 }] : List ChatSessionRow).length none =
      [{ id := "s1", auth0Sub := "u", title := none, mode := "coach"
         createdAt := 30 },
       { id := "s2", auth0Sub := "u", title := none, mode := "coach"
         createdAt := 20 },
       { id := "s3", auth0Sub := "u", title := none, mode := "review"
         createdAt := 10 }] :=
  pagination_stable_and_complete ChatSessionRow.id
    [{ id := "s1", auth0Sub := "u", title := none, mode := "coach"
       createdAt := 30 },
     { id := "s2", auth0Sub := "u", title := none, mode := "coach"
       createdAt := 20 },
     { id := "s3", auth0Sub := "u", title := none, mode := "review"
       createdAt := 10 }] 2 (by decide) (by decide)

/-- C6 counterexample: the chat-history endpoints pass no headers to
`NextResponse.json`, so their responses — successful ones included — carry
no `X-Request-Id` header, contradicting the claim that every endpoint's
response includes a correlation id header. -/
theorem history_missing_request_id_counterexample :
    (historyGET [] [] (some "u1") none none).status = 200 ∧
    (historyGET [] [] (some "u1") none none).headers.lookup "X-Request-Id"
      = none ∧
    (historyGET [] [] (some "u1") none none).headers = [] ∧
    (messagesGET
      [{ id := "s1", auth0Sub := "u1", title := none, mode := "coach"
         createdAt := 0 }] [] (some "u1") (some "s1") none none).status
      = 200 ∧
    (messagesGET
      [{ id := "s1", auth0Sub := "u1", title := none, mode := "coach"
         createdAt := 0 }] [] (some "u1") (some "s1") none none).headers
      = [] := by
  refine ⟨rfl, rfl, rfl, ?_, ?_⟩ <;> decide

/-- C6 (amended): the production chat route and the admin billing/metrics
routes attach `X-Request-Id` to every outcome, and the chat route's
rate-limited responses carry exactly the correlation id, the three
rate-limit headers and `Retry-After`; the chat-history endpoints, however,
set no headers at all (no correlation id header). -/
theorem request_id_headers_amended :
    (∀ (rid : String) (meta : Option RateMeta) (retry : Option ℤ),
      (responseHeaders rid meta retry).lookup "X-Request-Id" = some rid) ∧
    (∀ rid : String, billingHeaders rid = [("X-Request-Id", rid)]) ∧
    (∀ (rid : String) (o : RateLimitOutcome) (nowMs : ℚ),
      (rateLimitBranch rid o nowMs).headers.map Prod.fst =
        ["X-Request-Id", "X-RateLimit-Limit", "X-RateLimit-Remaining",
         "X-RateLimit-Reset", "Retry-After"]) ∧
    (∀ sessions messages sub limitParam cursor,
      (historyGET sessions messages sub limitParam cursor).headers = []) ∧
    (∀ sessions messages sub sessionId limitParam cursor,
      (messagesGET sessions messages sub sessionId limitParam cursor).headers
        = []) := by
  refine ⟨?_, fun _ => rfl, ?_, ?_, ?_⟩
  · intro rid meta retry
    simp [responseHeaders, List.lookup]
  · intro rid o nowMs
    have hone : 1 ≤ resetSecondsOf o.reset nowMs := by
      cases hr : o.reset with
      | none => simp [resetSecondsOf]
      | some r => simp only [resetSecondsOf]; exact le_max_left 1 _
    have hpos : (0 : ℤ) < resetSecondsOf o.reset nowMs :=
      lt_of_lt_of_le one_pos hone
    simp [rateLimitBranch, responseHeaders, rateMetaOf, hpos, ne_of_gt hpos]
  · intro sessions messages sub limitParam cursor
    cases sub <;> rfl
  · intro sessions messages sub sessionId limitParam cursor
    cases sub with
    | none => rfl
    | some s =>
      cases sessionId with
      | none => rfl
      | some sid =>
        by_cases hf :
          (sessions.find? fun r => r.id == sid && r.auth0Sub == s).isNone <;>
          simp [messagesGET, hf]

end MVP
